import Mathlib

/-!
Verification of the reservation-display derivation logic of the table-reservation
dashboard (current revision of the dashboard script, together with the admin
console's snapshot fetch).  JavaScript values are shallowly embedded: a
reservation's `start_time` string is carried in already-parsed form
(`Option Int`, epoch milliseconds, `none` when `new Date(s)` yields NaN);
`Array.prototype.sort` with the numeric comparators used by the code is
embedded as a stable insertion sort on the comparator's order (ECMAScript
guarantees a stable sort consistent with the comparator whenever the
comparator is consistent; the theorems about list order therefore assume the
compared timestamps parse); `Math.round(x / 60000)` on exact millisecond
differences is embedded as floor division; timestamp strings handled by
`alignToQuarter` are embedded as their character lists.
-/

/-- A reservation as the display code consumes it: `status` is the raw status
string and `start` is the already-parsed instant of `start_time`
(`none` when `new Date(start_time).getTime()` is NaN). -/
structure Reservation where
  id : Nat
  status : String
  start : Option Int
deriving DecidableEq, Repr

/-- The millisecond key the comparators subtract; every place the code sorts or
compares, the entries either were filtered to valid instants first or the
theorems assume validity, so the default 0 for `none` is never relied upon. -/
def startKey (r : Reservation) : Int := r.start.getD 0

/-- Comparator `(a, b) => a.start - b.start` (ascending) as a may-precede test. -/
def leAsc (a b : Reservation) : Bool := decide (startKey a ≤ startKey b)

/-- Comparator `(a, b) => new Date(b.start_time) - new Date(a.start_time)`
(descending) as a may-precede test. -/
def leDesc (a b : Reservation) : Bool := decide (startKey b ≤ startKey a)

/-- Stable insertion of `x` into `l`: `x` goes before the first element it may
precede, hence before later equal elements and after earlier ones, which is
exactly the stability ECMAScript guarantees for `Array.prototype.sort`. -/
def insertBy (le : Reservation → Reservation → Bool) (x : Reservation) :
    List Reservation → List Reservation
  | [] => [x]
  | y :: ys => if le x y then x :: y :: ys else y :: insertBy le x ys

/-- Stable sort by the comparator `le`, embedding `Array.prototype.sort`. -/
def sortBy (le : Reservation → Reservation → Bool) :
    List Reservation → List Reservation
  | [] => []
  | x :: xs => insertBy le x (sortBy le xs)

/-- Steps 1-2 of the next-reservation selector as both display derivations
perform them: `filter(res => res.status === 'active')` followed by
`map(res => ({...res, start: new Date(res.start_time)}))` and
`filter(res => !Number.isNaN(res.start.getTime()))`; the map is pre-applied
by the embedding, so it remains the status filter then the validity filter. -/
def activeValid (rs : List Reservation) : List Reservation :=
  (rs.filter fun r => r.status == "active").filter fun r => r.start.isSome

/-- `getNextReservation`: keep active reservations with parseable start
instants, sort ascending, return the first entry at or after `now`, falling
back to the earliest entry (`next || active[0]`), and `null` when the
filtered set is empty. -/
def getNextReservation (rs : List Reservation) (now : Int) : Option Reservation :=
  let active := sortBy leAsc (activeValid rs)
  if active.isEmpty then none
  else
    match active.find? fun r => decide (now ≤ startKey r) with
    | some next => some next
    | none => active.head?

/-- `Math.round((startMs - nowMs) / 60000)` on an exact millisecond difference:
rounding half toward positive infinity, i.e. the floor of `x + 1/2`. -/
def jsRoundMin (diffMs : Int) : Int := Int.fdiv (diffMs + 30000) 60000

/-- `computeCardColor`: `null` when no active reservation (or none with a
parseable instant) exists, otherwise the first-match-wins threshold chain on
`diffMinutes` computed from the earliest active valid reservation. -/
def computeCardColor (rs : List Reservation) (now : Int) : Option (String × String) :=
  let activeReservations := rs.filter fun r => r.status == "active"
  if activeReservations.isEmpty then none
  else
    match sortBy leAsc (activeValid rs) with
    | [] => none
    | next :: _ =>
      let diffMinutes := jsRoundMin (startKey next - now)
      if diffMinutes < 0 then some ("#f3e5f5", "#8e24aa")
      else if diffMinutes ≤ 10 then some ("#ffebee", "#d32f2f")
      else if diffMinutes ≤ 30 then some ("#ffe5e5", "#ef5350")
      else if diffMinutes ≤ 180 then some ("#fff8e1", "#f9a825")
      else if diffMinutes ≤ 1440 then some ("#e8f5e9", "#4caf50")
      else none

/-- The urgency tiers named by the specification. -/
inductive Bucket
  | overdue
  | imminent
  | near
  | soon
  | today
  | neutral
deriving DecidableEq, Repr

/-- Minimum of a list of keys (`none` on the empty list); used to state the
specification's "earliest active reservation". -/
def keyMin : List Int → Option Int
  | [] => none
  | k :: ks => some (ks.foldl min k)

/-- Spec-side bucketing, written from the specification's words: neutral when
the active valid set is empty, otherwise the ordered threshold table applied
to `diffMinutes = round((earliest.start_time - now) / 60000)` where earliest
is the minimal start instant of the active valid reservations. -/
def cardBucket (rs : List Reservation) (now : Int) : Bucket :=
  match keyMin ((activeValid rs).map startKey) with
  | none => Bucket.neutral
  | some k =>
    let d := jsRoundMin (k - now)
    if d < 0 then Bucket.overdue
    else if 0 ≤ d ∧ d ≤ 10 then Bucket.imminent
    else if 10 < d ∧ d ≤ 30 then Bucket.near
    else if 30 < d ∧ d ≤ 180 then Bucket.soon
    else if 180 < d ∧ d ≤ 1440 then Bucket.today
    else Bucket.neutral

/-- The concrete card colors the code uses for each spec bucket; neutral is
the `null` (no color) result. -/
def bucketColor : Bucket → Option (String × String)
  | Bucket.overdue => some ("#f3e5f5", "#8e24aa")
  | Bucket.imminent => some ("#ffebee", "#d32f2f")
  | Bucket.near => some ("#ffe5e5", "#ef5350")
  | Bucket.soon => some ("#fff8e1", "#f9a825")
  | Bucket.today => some ("#e8f5e9", "#4caf50")
  | Bucket.neutral => none

/-- The per-item loop of `renderReservationList`: each item is appended unless
its status is `arrived`, in which case the loop body returns early before
appending. -/
def renderItems : List Reservation → List Reservation
  | [] => []
  | r :: rest => if r.status == "arrived" then renderItems rest else r :: renderItems rest

/-- `renderReservationList` (current dashboard script), as the sequence of
reservation items actually appended to the list: nothing for an empty input,
otherwise the active entries sorted ascending followed by the remaining
entries sorted descending, with `arrived` entries skipped by the loop. -/
def renderReservationList (reservations : List Reservation) : List Reservation :=
  if reservations.isEmpty then []
  else
    let active := reservations.filter fun r => r.status == "active"
    let others := reservations.filter fun r => r.status != "active"
    renderItems (sortBy leAsc active ++ sortBy leDesc others)

/-- The detail-view ordering as the specification words it (claim C5):
partition into active and not-active, sort active ascending and not-active
descending by start time, and concatenate active-then-not-active with every
item rendered. -/
def renderOrderSpec (reservations : List Reservation) : List Reservation :=
  let active := reservations.filter fun r => r.status == "active"
  let others := reservations.filter fun r => r.status != "active"
  sortBy leAsc active ++ sortBy leDesc others

/-- A local wall-clock instant as `setDefaultReservationTime` manipulates it:
`totalMin` counts whole minutes (so `getMinutes()` is `totalMin % 60` and
`setMinutes(getMinutes() + k)` adds `k` to `totalMin`, carrying into the hour
exactly as the JS `Date` setter does), with the second and millisecond parts
kept separately for `setSeconds(0, 0)`. -/
structure LocalClock where
  totalMin : Nat
  sec : Nat
  ms : Nat
deriving DecidableEq, Repr

/-- `setDefaultReservationTime` (current dashboard script): round the current
time up to the next quarter hour and zero the seconds and milliseconds. -/
def setDefaultReservationTime (now : LocalClock) : LocalClock :=
  let remainder := now.totalMin % 60 % 15
  let increment := if remainder = 0 then 15 else 15 - remainder
  { totalMin := now.totalMin + increment, sec := 0, ms := 0 }

/-- Whitespace as JS `Number` coercion strips it around a numeric string. -/
def isJsSpace (c : Char) : Bool := c == ' ' || c == '\t' || c == '\n' || c == '\r'

/-- Strip leading and trailing whitespace from a character list. -/
def trimWs (l : List Char) : List Char :=
  ((l.dropWhile isJsSpace).reverse.dropWhile isJsSpace).reverse

/-- Decimal value of a digit list. -/
def digitsToNat (ds : List Char) : Nat :=
  ds.foldl (fun a c => a * 10 + (c.toNat - 48)) 0

/-- JS `Number(minuteStr)` on the fragment that can reach it here: surrounding
whitespace is stripped, the empty string is 0, an optionally signed run of
decimal digits is its value, and anything else is NaN (`none`).  Numeric
forms outside this fragment (decimals, exponents, hex) cannot occur in the
minute field of a datetime-local value and are mapped to NaN. -/
def jsNumber (l : List Char) : Option Int :=
  match trimWs l with
  | [] => some 0
  | '-' :: ds =>
    if !ds.isEmpty && ds.all Char.isDigit then some (-(digitsToNat ds : Int)) else none
  | '+' :: ds =>
    if !ds.isEmpty && ds.all Char.isDigit then some ((digitsToNat ds : Int)) else none
  | ds => if ds.all Char.isDigit then some ((digitsToNat ds : Int)) else none

/-- JS `String.prototype.split` with a single-character separator: the
segments between occurrences of the separator, in order, including empty
segments; always at least one segment. -/
def splitCh (c : Char) : List Char → List (List Char)
  | [] => [[]]
  | x :: xs =>
    if x = c then [] :: splitCh c xs
    else
      match splitCh c xs with
      | [] => [[x]]
      | s :: rest => (x :: s) :: rest

/-- JS `padStart(2, '0')`. -/
def padStart2 (l : List Char) : List Char := List.replicate (2 - l.length) '0' ++ l

/-- The final rebuilding step of `alignToQuarter`: floor the minute number to
a multiple of 15 (`Math.floor(minuteNum / 15) * 15`), pad its text to two
characters, and assemble `datePart + 'T' + hourStr + ':' + minuteText`. -/
def rebuildQuarter (datePart hourStr : List Char) (minuteNum : Int) : List Char :=
  datePart ++ 'T' :: (hourStr ++ ':' :: padStart2 (toString (minuteNum.fdiv 15 * 15)).toList)

/-- The branch of `alignToQuarter` on the `:`-segments of the time part: with
fewer than two segments, or a minute segment whose `Number(...)` is NaN, the
input truncated to 16 characters is returned; otherwise the result is rebuilt
with the floored minute. -/
def alignSegs (l datePart : List Char) : List (List Char) → List Char
  | hourStr :: minuteStr :: _ =>
    match jsNumber minuteStr with
    | none => l.take 16
    | some minuteNum => rebuildQuarter datePart hourStr minuteNum
  | _ => l.take 16

/-- The branch of `alignToQuarter` once the input splits at `'T'` into a date
part and a time part: an empty time part (`if (!timePart) return value`)
returns the input, otherwise the time part is split at `':'`. -/
def alignTimePart (l datePart timePart : List Char) : List Char :=
  if timePart = [] then l else alignSegs l datePart (splitCh ':' timePart)

/-- The branch of `alignToQuarter` on the `'T'`-segments of the input: without
a second segment (`timePart === undefined`) the input is returned. -/
def alignParts (l : List Char) : List (List Char) → List Char
  | datePart :: timePart :: _ => alignTimePart l datePart timePart
  | _ => l

/-- `alignToQuarter` on the character list of its input (current dashboard
script), with its control flow factored into the named stages above: empty
input and input without a `T` separator are returned as is; a time part with
fewer than two `:`-segments or a minute segment that is NaN yields the input
truncated to 16 characters; otherwise the minute is floored to a multiple of
15 and the result is rebuilt from the date part, the hour segment and the
padded minute text. -/
def alignToQuarterL (l : List Char) : List Char :=
  if l = [] then l else alignParts l (splitCh 'T' l)

/-- `alignToQuarter` on strings. -/
def alignToQuarter (value : String) : String := String.mk (alignToQuarterL value.toList)

/-- The start-time handling of the reservation form's submit handler: an empty
`start_time` (falsy) is rejected with an alert and no request, otherwise the
value sent is `alignToQuarter` of the entered value. -/
def submitStartTime (s : String) : Option String :=
  if s.toList.isEmpty then none else some (alignToQuarter s)

/-- The two-digit minute text of a minute value below 60 (the form a
datetime-local control and the code's own `padStart(2, '0')` produce). -/
def minuteChars (m : Nat) : List Char := padStart2 (toString m).toList

/-- A well-formed datetime-local character list `d ++ "T" ++ h ++ ":" ++ mm`
with a two-digit minute. -/
def mkLocalL (d h : List Char) (m : Nat) : List Char :=
  d ++ 'T' :: (h ++ ':' :: minuteChars m)

/-- The corresponding string. -/
def mkLocal (d h : List Char) (m : Nat) : String := String.mk (mkLocalL d h m)

/-- A table record of the snapshot. -/
structure Table where
  id : Nat
  floor : String
  name : String
  seats : Nat
  reservations : List Reservation
deriving DecidableEq, Repr

/-- The observable outcome of `await fetch('/api/tables')` followed by
`await response.json()`: the HTTP ok flag, and either a JSON parse failure of
the body or the parsed `tables` field (`none` when the field is absent, in
which case the code falls back to `[]`).  A network-level failure of the
fetch itself is the outer `Except.error`. -/
structure FetchResponse where
  ok : Bool
  json : Except Unit (Option (List Table))

/-- The try-block of `fetchTables` (identical in the two dashboard revisions
and the admin console): throw on a failed fetch, throw on a non-ok status,
throw on a body that fails to parse, otherwise produce `data.tables || []`. -/
def fetchTablesTry (resp : Except Unit FetchResponse) : Except Unit (List Table) := do
  let response ← resp
  if !response.ok then throw ()
  let data ← response.json
  pure (data.getD [])

/-- `fetchTables` as a transition on the in-memory snapshot
(`appState.tables` / `adminState.tables`): the try-block's result replaces
the state only when every step succeeded; the catch-block leaves the previous
state untouched. -/
def fetchTables (prev : List Table) (resp : Except Unit FetchResponse) : List Table :=
  match fetchTablesTry resp with
  | Except.ok tables => tables
  | Except.error _ => prev

/-- Concrete reservations for counterexamples and witnesses. -/
def resActive : Reservation := ⟨1, "active", some 0⟩

def resArrived : Reservation := ⟨2, "arrived", some 600000⟩

def resCancelled : Reservation := ⟨3, "cancelled", some 300000⟩

def resArchived : Reservation := ⟨4, "archived", some 900000⟩

def resLater : Reservation := ⟨5, "active", some 1200000⟩

/-- The reservation set of the specification's worked example, relative to the
reference time: an active entry 5 minutes ahead, one 100 minutes overdue, and
one 2 days ahead. -/
def exampleRes (now : Int) : List Reservation :=
  [⟨1, "active", some (now + 300000)⟩,
   ⟨2, "active", some (now - 6000000)⟩,
   ⟨3, "active", some (now + 172800000)⟩]

theorem insertBy_perm (le : Reservation → Reservation → Bool) (x : Reservation)
    (l : List Reservation) : (insertBy le x l).Perm (x :: l) := by
  induction l with
  | nil => simp [insertBy]
  | cons y ys ih =>
    by_cases h : le x y = true
    · rw [insertBy, if_pos h]
    · rw [insertBy, if_neg h]
      exact (List.Perm.cons y ih).trans (List.Perm.swap x y ys)

theorem sortBy_perm (le : Reservation → Reservation → Bool) (l : List Reservation) :
    (sortBy le l).Perm l := by
  induction l with
  | nil => simp [sortBy]
  | cons x xs ih => exact (insertBy_perm le x (sortBy le xs)).trans (List.Perm.cons x ih)

theorem mem_sortBy {le : Reservation → Reservation → Bool} {l : List Reservation}
    {a : Reservation} : a ∈ sortBy le l ↔ a ∈ l :=
  (sortBy_perm le l).mem_iff

theorem insertBy_pairwise {le : Reservation → Reservation → Bool}
    (htot : ∀ a b, le a b = true ∨ le b a = true)
    (htrans : ∀ a b c, le a b = true → le b c = true → le a c = true)
    {x : Reservation} {l : List Reservation}
    (hl : l.Pairwise (fun a b => le a b = true)) :
    (insertBy le x l).Pairwise (fun a b => le a b = true) := by
  induction l with
  | nil => simp [insertBy]
  | cons y ys ih =>
    rcases List.pairwise_cons.mp hl with ⟨hy, hys⟩
    by_cases h : le x y = true
    · simp only [insertBy, if_pos h]
      refine List.pairwise_cons.mpr ⟨?_, hl⟩
      intro z hz
      rcases List.mem_cons.mp hz with rfl | hz
      · exact h
      · exact htrans x y z h (hy z hz)
    · simp only [insertBy, if_neg h]
      refine List.pairwise_cons.mpr ⟨?_, ih hys⟩
      intro z hz
      rcases List.mem_cons.mp ((insertBy_perm le x ys).mem_iff.mp hz) with hzx | hz
      · subst hzx
        rcases htot z y with h1 | h1
        · exact absurd h1 h
        · exact h1
      · exact hy z hz

theorem sortBy_pairwise {le : Reservation → Reservation → Bool}
    (htot : ∀ a b, le a b = true ∨ le b a = true)
    (htrans : ∀ a b c, le a b = true → le b c = true → le a c = true)
    (l : List Reservation) :
    (sortBy le l).Pairwise (fun a b => le a b = true) := by
  induction l with
  | nil => simp [sortBy]
  | cons x xs ih => exact insertBy_pairwise htot htrans ih

theorem leAsc_total : ∀ a b, leAsc a b = true ∨ leAsc b a = true := by
  intro a b
  simp only [leAsc, decide_eq_true_eq]
  omega

theorem leAsc_trans : ∀ a b c, leAsc a b = true → leAsc b c = true → leAsc a c = true := by
  intro a b c
  simp only [leAsc, decide_eq_true_eq]
  omega

theorem leDesc_total : ∀ a b, leDesc a b = true ∨ leDesc b a = true := by
  intro a b
  simp only [leDesc, decide_eq_true_eq]
  omega

theorem leDesc_trans : ∀ a b c, leDesc a b = true → leDesc b c = true → leDesc a c = true := by
  intro a b c
  simp only [leDesc, decide_eq_true_eq]
  omega

/-- Filtering a stable insertion commutes with the insertion provided `le`
holds from `x` to every element of `l` sharing the filtered class with `x`
(for key-class filters this is exactly reflexivity of the key order). -/
theorem filter_insertBy {le : Reservation → Reservation → Bool}
    (p : Reservation → Bool) {x : Reservation} {l : List Reservation}
    (hx : ∀ y ∈ l, p x = true → p y = true → le x y = true) :
    (insertBy le x l).filter p = if p x then x :: l.filter p else l.filter p := by
  induction l with
  | nil =>
    by_cases hpx : p x = true <;> simp [insertBy, hpx]
  | cons y ys ih =>
    by_cases h : le x y = true
    · by_cases hpx : p x = true <;> by_cases hpy : p y = true <;>
        simp [insertBy, h, List.filter_cons, hpx, hpy]
    · have hrec := ih (fun z hz => hx z (List.mem_cons_of_mem y hz))
      by_cases hpx : p x = true
      · by_cases hpy : p y = true
        · exact absurd (hx y (List.mem_cons_self y ys) hpx hpy) h
        · simp [insertBy, h, List.filter_cons, hpx, hpy, hrec]
      · by_cases hpy : p y = true <;>
          simp [insertBy, h, List.filter_cons, hpx, hpy, hrec]

/-- Stability of the embedded sort, as filter-invariance of any class on which
`le` always holds (e.g. a fixed sort key). -/
theorem filter_sortBy {le : Reservation → Reservation → Bool}
    (p : Reservation → Bool) {l : List Reservation}
    (h : ∀ a ∈ l, ∀ b ∈ l, p a = true → p b = true → le a b = true) :
    (sortBy le l).filter p = l.filter p := by
  induction l with
  | nil => simp [sortBy]
  | cons x xs ih =>
    have hx : ∀ y ∈ sortBy le xs, p x = true → p y = true → le x y = true := by
      intro y hy
      exact h x (List.mem_cons_self x xs) y
        (List.mem_cons_of_mem x (mem_sortBy.mp hy))
    have hrec := ih (fun a ha b hb => h a (List.mem_cons_of_mem x ha) b (List.mem_cons_of_mem x hb))
    rw [sortBy, filter_insertBy p hx]
    simp only [hrec, List.filter_cons]

theorem mem_activeValid {rs : List Reservation} {r : Reservation} (h : r ∈ activeValid rs) :
    r ∈ rs ∧ r.status = "active" ∧ r.start.isSome = true := by
  simp only [activeValid, List.mem_filter] at h
  exact ⟨h.1.1, by simpa using h.1.2, h.2⟩

/-- On a list that is pairwise ordered by `le`, `find?` returns a satisfying
member that is `le` every satisfying member. -/
theorem find?_sorted_char {le : Reservation → Reservation → Bool}
    (htot : ∀ a b, le a b = true ∨ le b a = true)
    {l : List Reservation} (hpw : l.Pairwise (fun a b => le a b = true))
    {p : Reservation → Bool} {r : Reservation} (hfind : l.find? p = some r) :
    p r = true ∧ r ∈ l ∧ ∀ x ∈ l, p x = true → le r x = true := by
  induction l with
  | nil => simp at hfind
  | cons a t ih =>
    rcases List.pairwise_cons.mp hpw with ⟨ha, ht⟩
    by_cases hpa : p a = true
    · rw [List.find?_cons_of_pos _ hpa] at hfind
      obtain rfl : a = r := by injection hfind
      refine ⟨hpa, List.mem_cons_self a t, ?_⟩
      intro x hx _
      rcases List.mem_cons.mp hx with rfl | hx
      · rcases htot x x with h1 | h1 <;> exact h1
      · exact ha x hx
    · rw [List.find?_cons_of_neg _ hpa] at hfind
      obtain ⟨hp, hmem, hmin⟩ := ih ht hfind
      refine ⟨hp, List.mem_cons_of_mem a hmem, ?_⟩
      intro x hx hpx
      rcases List.mem_cons.mp hx with rfl | hx
      · exact absurd hpx hpa
      · exact hmin x hx hpx

theorem foldl_min_le (ks : List Int) (a : Int) : ks.foldl min a ≤ a := by
  induction ks generalizing a with
  | nil => simp
  | cons k t ih =>
    calc t.foldl min (min a k) ≤ min a k := ih (min a k)
    _ ≤ a := min_le_left a k

theorem foldl_min_le_mem (ks : List Int) {x : Int} (hx : x ∈ ks) :
    ∀ a : Int, ks.foldl min a ≤ x := by
  induction ks with
  | nil => simp at hx
  | cons k t ih =>
    intro a
    simp only [List.foldl_cons]
    rcases List.mem_cons.mp hx with h1 | h1
    · subst h1
      exact le_trans (foldl_min_le t (min a x)) (min_le_right a x)
    · exact ih h1 (min a k)

theorem foldl_min_cases (ks : List Int) (a : Int) :
    ks.foldl min a = a ∨ ks.foldl min a ∈ ks := by
  induction ks generalizing a with
  | nil => simp
  | cons k t ih =>
    rcases ih (min a k) with h | h
    · rcases min_cases a k with ⟨hm, _⟩ | ⟨hm, _⟩
      · exact Or.inl (by rw [List.foldl_cons, h, hm])
      · refine Or.inr ?_
        rw [List.foldl_cons, h, hm]
        exact List.mem_cons_self k t
    · exact Or.inr (List.mem_cons_of_mem k (by rw [List.foldl_cons]; exact h))

theorem keyMin_spec {ks : List Int} {m : Int} (h : keyMin ks = some m) :
    m ∈ ks ∧ ∀ x ∈ ks, m ≤ x := by
  cases ks with
  | nil => simp [keyMin] at h
  | cons k t =>
    obtain rfl : t.foldl min k = m := by simpa [keyMin] using h
    constructor
    · rcases foldl_min_cases t k with h1 | h1
      · rw [h1]; exact List.mem_cons_self k t
      · exact List.mem_cons_of_mem k h1
    · intro x hx
      rcases List.mem_cons.mp hx with rfl | hx
      · exact foldl_min_le t x
      · exact foldl_min_le_mem t hx k

/-- The head of the ascending sort carries the minimal start key. -/
theorem sortBy_head_keyMin {l : List Reservation} {first : Reservation}
    {rest : List Reservation} (h : sortBy leAsc l = first :: rest) :
    keyMin (l.map startKey) = some (startKey first) := by
  have hperm : (first :: rest).Perm l := by rw [← h]; exact sortBy_perm leAsc l
  have hpw := sortBy_pairwise leAsc_total leAsc_trans l
  rw [h] at hpw
  cases hl : l.map startKey with
  | nil =>
    exfalso
    have : l = [] := by
      cases l with
      | nil => rfl
      | cons a t => simp at hl
    rw [this] at hperm
    simpa using hperm.length_eq
  | cons k ks =>
    have hsome : keyMin (l.map startKey) = some (ks.foldl min k) := by rw [hl]; rfl
    obtain ⟨hmem, hle⟩ := keyMin_spec hsome
    have hfirstmem : first ∈ l := hperm.mem_iff.mp (List.mem_cons_self first rest)
    have h1 : ks.foldl min k ≤ startKey first :=
      hle (startKey first) (List.mem_map_of_mem startKey hfirstmem)
    obtain ⟨x, hxl, hxk⟩ := List.mem_map.mp hmem
    have hx2 : x ∈ first :: rest := hperm.mem_iff.mpr hxl
    have h2 : startKey first ≤ ks.foldl min k := by
      rcases List.mem_cons.mp hx2 with rfl | hx2
      · rw [hxk]
      · have := (List.pairwise_cons.mp hpw).1 x hx2
        rw [leAsc, decide_eq_true_eq] at this
        rw [← hxk]
        exact this
    calc keyMin (k :: ks) = some (ks.foldl min k) := rfl
    _ = some (startKey first) := by rw [le_antisymm h1 h2]

/-- C6: the default start-time suggestion adds `15 - (minutes mod 15)` minutes
(or `15` when the minute is already on a boundary), zeroes seconds and
sub-seconds, and thereby lands on the next quarter-hour boundary strictly in
the future; minute 37 becomes minute 45. -/
theorem claim6_default_time_rounds_up (now : LocalClock) :
    (setDefaultReservationTime now).sec = 0 ∧
    (setDefaultReservationTime now).ms = 0 ∧
    (setDefaultReservationTime now).totalMin =
      now.totalMin + (if now.totalMin % 60 % 15 = 0 then 15 else 15 - now.totalMin % 60 % 15) ∧
    (setDefaultReservationTime now).totalMin % 15 = 0 ∧
    now.totalMin < (setDefaultReservationTime now).totalMin ∧
    (setDefaultReservationTime now).totalMin ≤ now.totalMin + 15 ∧
    (now.totalMin % 60 = 37 → (setDefaultReservationTime now).totalMin % 60 = 45) := by
  refine ⟨rfl, rfl, rfl, ?_, ?_, ?_, ?_⟩ <;>
    simp only [setDefaultReservationTime] <;> intros <;> split_ifs <;> omega

/-- Witness for C6 at 12:37:12.345 local (minute-of-hour 37): the suggestion
moves to minute 45 with zeroed sub-minute parts. -/
theorem claim6_default_time_rounds_up_witness :
    (setDefaultReservationTime ⟨757, 12, 345⟩).totalMin % 60 = 45 ∧
    (setDefaultReservationTime ⟨757, 12, 345⟩).sec = 0 ∧
    (setDefaultReservationTime ⟨757, 12, 345⟩).ms = 0 :=
  ⟨(claim6_default_time_rounds_up ⟨757, 12, 345⟩).2.2.2.2.2.2 (by decide),
   (claim6_default_time_rounds_up ⟨757, 12, 345⟩).1,
   (claim6_default_time_rounds_up ⟨757, 12, 345⟩).2.1⟩

theorem filter_middle {p : Reservation → Bool} {r : Reservation}
    (l1 l2 : List Reservation) (h : p r = false) :
    (l1 ++ r :: l2).filter p = (l1 ++ l2).filter p := by
  simp [List.filter_append, List.filter_cons, h]

/-- C1: `getNextReservation` keeps exactly the active reservations with
parseable start instants; it returns none precisely when that set is empty;
when it returns an entry, the entry is from that set, it is the earliest
entry at or after `now` whenever such an entry exists, and otherwise it is
the earliest entry overall (the oldest-overdue fallback). -/
theorem claim1_next_reservation_selection (rs : List Reservation) (now : Int) :
    (getNextReservation rs now = none ↔ activeValid rs = []) ∧
    (∀ r, getNextReservation rs now = some r →
      r ∈ activeValid rs ∧ r.status = "active" ∧ r.start.isSome = true ∧
      ((∃ x ∈ activeValid rs, now ≤ startKey x) →
        now ≤ startKey r ∧ ∀ x ∈ activeValid rs, now ≤ startKey x → startKey r ≤ startKey x) ∧
      ((∀ x ∈ activeValid rs, startKey x < now) →
        ∀ x ∈ activeValid rs, startKey r ≤ startKey x)) := by
  have hperm := sortBy_perm leAsc (activeValid rs)
  have hpw := sortBy_pairwise leAsc_total leAsc_trans (activeValid rs)
  cases hs : sortBy leAsc (activeValid rs) with
  | nil =>
    rw [hs] at hperm
    have hav : activeValid rs = [] := hperm.symm.eq_nil
    have hval : getNextReservation rs now = none := by
      simp only [getNextReservation]
      rw [hs]
      rfl
    refine ⟨⟨fun _ => hav, fun _ => hval⟩, ?_⟩
    intro r hr
    rw [hval] at hr
    exact absurd hr (by simp)
  | cons first rest =>
    rw [hs] at hperm hpw
    have hne : activeValid rs ≠ [] := by
      intro h0
      rw [h0] at hperm
      simpa using hperm.length_eq
    cases hfind : (first :: rest).find? (fun r => decide (now ≤ startKey r)) with
    | some next =>
      have hval : getNextReservation rs now = some next := by
        simp only [getNextReservation]
        rw [hs, hfind]
        rfl
      obtain ⟨hp, hmem, hmin⟩ := find?_sorted_char leAsc_total hpw hfind
      have hrmem : next ∈ activeValid rs := hperm.mem_iff.mp hmem
      have hpr : now ≤ startKey next := of_decide_eq_true hp
      refine ⟨⟨fun h => by rw [hval] at h; simp at h, fun h => absurd h hne⟩, ?_⟩
      intro r hr
      rw [hval] at hr
      obtain rfl : next = r := by injection hr
      have hm := mem_activeValid hrmem
      refine ⟨hrmem, hm.2.1, hm.2.2, ?_, ?_⟩
      · intro _
        refine ⟨hpr, ?_⟩
        intro x hx hxle
        have hxmem : x ∈ first :: rest := hperm.mem_iff.mpr hx
        have hle := hmin x hxmem (decide_eq_true hxle)
        rw [leAsc, decide_eq_true_eq] at hle
        exact hle
      · intro hall x hx
        exact absurd (hall next hrmem) (not_lt.mpr hpr)
    | none =>
      have hval : getNextReservation rs now = some first := by
        simp only [getNextReservation]
        rw [hs, hfind]
        rfl
      have hfmem : first ∈ activeValid rs := hperm.mem_iff.mp (List.mem_cons_self first rest)
      have hm := mem_activeValid hfmem
      have hnone := List.find?_eq_none.mp hfind
      refine ⟨⟨fun h => by rw [hval] at h; simp at h, fun h => absurd h hne⟩, ?_⟩
      intro r hr
      rw [hval] at hr
      obtain rfl : first = r := by injection hr
      refine ⟨hfmem, hm.2.1, hm.2.2, ?_, ?_⟩
      · rintro ⟨x, hx, hxle⟩
        have hxmem : x ∈ first :: rest := hperm.mem_iff.mpr hx
        exact absurd (decide_eq_true hxle) (by simpa using hnone x hxmem)
      · intro _ x hx
        have hxmem : x ∈ first :: rest := hperm.mem_iff.mpr hx
        rcases List.mem_cons.mp hxmem with h2 | h2
        · rw [h2]
        · have hle := (List.pairwise_cons.mp hpw).1 x h2
          rw [leAsc, decide_eq_true_eq] at hle
          exact hle

/-- Witness for C1 on a concrete list with a cancelled entry, a past active
entry and a future active entry: the selected entry is active, valid and at
or after the reference time. -/
theorem claim1_next_reservation_selection_witness :
    resLater ∈ activeValid [resCancelled, resLater, resActive] ∧
    (100 : Int) ≤ startKey resLater := by
  have h := (claim1_next_reservation_selection [resCancelled, resLater, resActive] 100).2
    resLater (by decide)
  exact ⟨h.1, (h.2.2.2.1 ⟨resLater, h.1, by decide⟩).1⟩

/-- C2: `computeCardColor` agrees everywhere with the specification's
bucketing — neutral (no color) when the active valid set is empty, otherwise
the ordered first-match-wins thresholds on `diffMinutes` rounded from the
earliest active valid reservation's distance to `now`. -/
theorem claim2_card_color_buckets (rs : List Reservation) (now : Int) :
    computeCardColor rs now = bucketColor (cardBucket rs now) := by
  by_cases hempty : ((rs.filter fun r => r.status == "active").isEmpty = true)
  · have hav : activeValid rs = [] := by
      unfold activeValid
      rw [List.isEmpty_iff] at hempty
      rw [hempty]
      rfl
    have h1 : computeCardColor rs now = none := by
      simp only [computeCardColor]
      rw [if_pos hempty]
    have h2 : cardBucket rs now = Bucket.neutral := by
      simp only [cardBucket]
      rw [hav]
      rfl
    rw [h1, h2]
    rfl
  · cases hs : sortBy leAsc (activeValid rs) with
    | nil =>
      have hav : activeValid rs = [] := by
        have hperm := sortBy_perm leAsc (activeValid rs)
        rw [hs] at hperm
        exact hperm.symm.eq_nil
      have h1 : computeCardColor rs now = none := by
        simp only [computeCardColor]
        rw [if_neg hempty, hs]
      have h2 : cardBucket rs now = Bucket.neutral := by
        simp only [cardBucket]
        rw [hav]
        rfl
      rw [h1, h2]
      rfl
    | cons next t =>
      have hkm := sortBy_head_keyMin hs
      have h1 : computeCardColor rs now =
          (if jsRoundMin (startKey next - now) < 0 then some ("#f3e5f5", "#8e24aa")
           else if jsRoundMin (startKey next - now) ≤ 10 then some ("#ffebee", "#d32f2f")
           else if jsRoundMin (startKey next - now) ≤ 30 then some ("#ffe5e5", "#ef5350")
           else if jsRoundMin (startKey next - now) ≤ 180 then some ("#fff8e1", "#f9a825")
           else if jsRoundMin (startKey next - now) ≤ 1440 then some ("#e8f5e9", "#4caf50")
           else none) := by
        simp only [computeCardColor]
        rw [if_neg hempty, hs]
      have h2 : cardBucket rs now =
          (if jsRoundMin (startKey next - now) < 0 then Bucket.overdue
           else if 0 ≤ jsRoundMin (startKey next - now) ∧ jsRoundMin (startKey next - now) ≤ 10
             then Bucket.imminent
           else if 10 < jsRoundMin (startKey next - now) ∧ jsRoundMin (startKey next - now) ≤ 30
             then Bucket.near
           else if 30 < jsRoundMin (startKey next - now) ∧ jsRoundMin (startKey next - now) ≤ 180
             then Bucket.soon
           else if 180 < jsRoundMin (startKey next - now) ∧ jsRoundMin (startKey next - now) ≤ 1440
             then Bucket.today
           else Bucket.neutral) := by
        simp only [cardBucket]
        rw [hkm]
      rw [h1, h2]
      split_ifs <;> first | rfl | omega

/-- C4: a reservation whose status is arrived, archived or cancelled is inert
for the display derivations wherever it is inserted, and a table whose only
reservation is cancelled gets no next reservation and no card color. -/
theorem claim4_nonactive_inert (l1 l2 : List Reservation) (r : Reservation) (now : Int)
    (h : r.status = "arrived" ∨ r.status = "archived" ∨ r.status = "cancelled") :
    getNextReservation (l1 ++ r :: l2) now = getNextReservation (l1 ++ l2) now ∧
    computeCardColor (l1 ++ r :: l2) now = computeCardColor (l1 ++ l2) now ∧
    (getNextReservation [r] now = none ∧ computeCardColor [r] now = none) := by
  have hst : (r.status == "active") = false := by
    rcases h with h | h | h <;> rw [h] <;> rfl
  have hfa : (l1 ++ r :: l2).filter (fun x => x.status == "active") =
      (l1 ++ l2).filter (fun x => x.status == "active") :=
    @filter_middle (fun x => x.status == "active") r l1 l2 hst
  have hav : activeValid (l1 ++ r :: l2) = activeValid (l1 ++ l2) := by
    unfold activeValid
    rw [hfa]
  have havr : activeValid [r] = [] := by
    simp [activeValid, List.filter_cons, hst]
  refine ⟨?_, ?_, ?_, ?_⟩
  · simp only [getNextReservation, hav]
  · simp only [computeCardColor, hav, hfa]
  · simp only [getNextReservation, havr]
    rfl
  · simp only [computeCardColor, List.filter_cons, hst]
    rfl

/-- Witness for C4: inserting a cancelled reservation between two active ones
changes neither derivation, and a lone cancelled reservation yields
none / no color. -/
theorem claim4_nonactive_inert_witness :
    getNextReservation ([resActive] ++ resCancelled :: [resLater]) 100 =
      getNextReservation ([resActive] ++ [resLater]) 100 ∧
    computeCardColor ([resActive] ++ resCancelled :: [resLater]) 100 =
      computeCardColor ([resActive] ++ [resLater]) 100 ∧
    (getNextReservation [resCancelled] 100 = none ∧
      computeCardColor [resCancelled] 100 = none) :=
  claim4_nonactive_inert [resActive] [resLater] resCancelled 100 (Or.inr (Or.inr rfl))

/-- C3 counterexample: at the worked example's reservation set the card color
is not the imminent bucket — the code buckets from the earliest active
reservation, which is 100 minutes overdue. -/
theorem claim3_worked_example_counterexample :
    ¬ (computeCardColor (exampleRes 0) 0 = bucketColor Bucket.imminent) := by decide

/-- C3 amended: on the worked example set, `getNextReservation` returns the
now+5m entry, but `computeCardColor` buckets the earliest active entry
(now-100m), yielding the overdue bucket rather than imminent. -/
theorem claim3_worked_example_amended (now : Int) :
    getNextReservation (exampleRes now) now = some ⟨1, "active", some (now + 300000)⟩ ∧
    computeCardColor (exampleRes now) now = bucketColor Bucket.overdue := by
  have hact : activeValid (exampleRes now) = exampleRes now := rfl
  have c23 : leAsc ⟨2, "active", some (now - 6000000)⟩
      ⟨3, "active", some (now + 172800000)⟩ = true :=
    decide_eq_true (by show (now - 6000000 : Int) ≤ now + 172800000; omega)
  have c12 : leAsc ⟨1, "active", some (now + 300000)⟩
      ⟨2, "active", some (now - 6000000)⟩ = false :=
    decide_eq_false (by show ¬ (now + 300000 : Int) ≤ now - 6000000; omega)
  have c13 : leAsc ⟨1, "active", some (now + 300000)⟩
      ⟨3, "active", some (now + 172800000)⟩ = true :=
    decide_eq_true (by show (now + 300000 : Int) ≤ now + 172800000; omega)
  have s2 : insertBy leAsc ⟨2, "active", some (now - 6000000)⟩
      [⟨3, "active", some (now + 172800000)⟩] =
      [⟨2, "active", some (now - 6000000)⟩, ⟨3, "active", some (now + 172800000)⟩] := by
    rw [insertBy, if_pos c23]
  have s1 : insertBy leAsc ⟨1, "active", some (now + 300000)⟩
      [⟨2, "active", some (now - 6000000)⟩, ⟨3, "active", some (now + 172800000)⟩] =
      [⟨2, "active", some (now - 6000000)⟩, ⟨1, "active", some (now + 300000)⟩,
       ⟨3, "active", some (now + 172800000)⟩] := by
    rw [insertBy, if_neg (by simp [c12]), insertBy, if_pos c13]
  have hs : sortBy leAsc (activeValid (exampleRes now)) =
      [⟨2, "active", some (now - 6000000)⟩, ⟨1, "active", some (now + 300000)⟩,
       ⟨3, "active", some (now + 172800000)⟩] := by
    rw [hact]
    show insertBy leAsc ⟨1, "active", some (now + 300000)⟩
      (insertBy leAsc ⟨2, "active", some (now - 6000000)⟩
        (insertBy leAsc ⟨3, "active", some (now + 172800000)⟩ [])) = _
    rw [insertBy, s2, s1]
  have p2 : decide (now ≤ startKey ⟨2, "active", some (now - 6000000)⟩) = false :=
    decide_eq_false (by show ¬ now ≤ now - 6000000; omega)
  have p1 : decide (now ≤ startKey ⟨1, "active", some (now + 300000)⟩) = true :=
    decide_eq_true (by show now ≤ now + 300000; omega)
  have hfind : [⟨2, "active", some (now - 6000000)⟩, ⟨1, "active", some (now + 300000)⟩,
      ⟨3, "active", some (now + 172800000)⟩].find?
        (fun r => decide (now ≤ startKey r)) =
      some ⟨1, "active", some (now + 300000)⟩ := by
    rw [List.find?_cons_of_neg _ (by simp [p2]), List.find?_cons_of_pos _ (by simp [p1])]
  have hne : ((exampleRes now).filter fun r => r.status == "active").isEmpty = false := rfl
  constructor
  · simp only [getNextReservation]
    rw [hs, hfind]
    rfl
  · have h1 : computeCardColor (exampleRes now) now =
        (if jsRoundMin (startKey ⟨2, "active", some (now - 6000000)⟩ - now) < 0
           then some ("#f3e5f5", "#8e24aa")
         else if jsRoundMin (startKey ⟨2, "active", some (now - 6000000)⟩ - now) ≤ 10
           then some ("#ffebee", "#d32f2f")
         else if jsRoundMin (startKey ⟨2, "active", some (now - 6000000)⟩ - now) ≤ 30
           then some ("#ffe5e5", "#ef5350")
         else if jsRoundMin (startKey ⟨2, "active", some (now - 6000000)⟩ - now) ≤ 180
           then some ("#fff8e1", "#f9a825")
         else if jsRoundMin (startKey ⟨2, "active", some (now - 6000000)⟩ - now) ≤ 1440
           then some ("#e8f5e9", "#4caf50")
         else none) := by
      simp only [computeCardColor]
      rw [if_neg (by rw [hne]; decide), hs]
    have hd : jsRoundMin (startKey ⟨2, "active", some (now - 6000000)⟩ - now) = -100 := by
      have h0 : startKey ⟨2, "active", some (now - 6000000)⟩ - now = -6000000 := by
        show now - 6000000 - now = -6000000
        omega
      rw [h0]
      decide
    rw [h1, hd]
    decide

/-- The render loop's early return on `arrived` makes the appended sequence a
filter of the ordered concatenation. -/
theorem renderItems_eq_filter (l : List Reservation) :
    renderItems l = l.filter fun r => r.status != "arrived" := by
  induction l with
  | nil => rfl
  | cons r rest ih =>
    by_cases h : (r.status == "arrived") = true
    · simp [renderItems, List.filter_cons, h, bne, ih]
    · simp [renderItems, List.filter_cons, h, bne, ih]

/-- C9: no reservation with status `arrived` ever appears in the rendered
detail-view list — the render loop returns before appending such items. -/
theorem claim9_no_arrived_rendered (reservations : List Reservation) (r : Reservation)
    (h : r ∈ renderReservationList reservations) : r.status ≠ "arrived" := by
  simp only [renderReservationList] at h
  by_cases hemp : reservations.isEmpty = true
  · rw [if_pos hemp] at h
    simp at h
  · rw [if_neg hemp, renderItems_eq_filter] at h
    have hf := (List.mem_filter.mp h).2
    simpa [bne_iff_ne] using hf

/-- Witness for C9: the active entry of a two-entry table is rendered and is
not arrived. -/
theorem claim9_no_arrived_rendered_witness : resActive.status ≠ "arrived" :=
  claim9_no_arrived_rendered [resActive, resArrived] resActive (by decide)

/-- C5 counterexample: with one active and one arrived reservation, the
rendered sequence omits the arrived entry, so it differs from the
specification's ordering in which every not-active entry appears. -/
theorem claim5_render_order_counterexample :
    renderReservationList [resActive, resArrived] ≠
      renderOrderSpec [resActive, resArrived] := by decide

/-- C5 amended: for reservation lists whose timestamps all parse (so the JS
comparator is consistent and ECMAScript fixes the sort), the rendered
sequence is the active entries sorted ascending by start time followed by the
not-active entries sorted descending with `arrived` entries skipped; the
first block is all active, the second all non-active, and both sorts are
stable (each start-key class keeps its input order). -/
theorem claim5_render_order_amended (reservations : List Reservation)
    (hvalid : ∀ r ∈ reservations, r.start.isSome = true) :
    renderReservationList reservations =
      sortBy leAsc (reservations.filter fun r => r.status == "active") ++
        ((sortBy leDesc (reservations.filter fun r => r.status != "active")).filter
          fun r => r.status != "arrived") ∧
    (∀ r ∈ sortBy leAsc (reservations.filter fun r => r.status == "active"),
      r.status = "active") ∧
    (∀ r ∈ (sortBy leDesc (reservations.filter fun r => r.status != "active")).filter
        (fun r => r.status != "arrived"), r.status ≠ "active") ∧
    (sortBy leAsc (reservations.filter fun r => r.status == "active")).Pairwise
      (fun a b => startKey a ≤ startKey b) ∧
    (sortBy leDesc (reservations.filter fun r => r.status != "active")).Pairwise
      (fun a b => startKey b ≤ startKey a) ∧
    (∀ k : Int,
      ((sortBy leAsc (reservations.filter fun r => r.status == "active")).filter
        fun r => startKey r == k) =
      ((reservations.filter fun r => r.status == "active").filter
        fun r => startKey r == k)) ∧
    (∀ k : Int,
      ((sortBy leDesc (reservations.filter fun r => r.status != "active")).filter
        fun r => startKey r == k) =
      ((reservations.filter fun r => r.status != "active").filter
        fun r => startKey r == k)) := by
  refine ⟨?_, ?_, ?_, ?_, ?_, ?_, ?_⟩
  · simp only [renderReservationList]
    by_cases hemp : reservations.isEmpty = true
    · rw [if_pos hemp]
      have h0 : reservations = [] := List.isEmpty_iff.mp hemp
      subst h0
      rfl
    · rw [if_neg hemp, renderItems_eq_filter, List.filter_append]
      congr 1
      apply List.filter_eq_self.mpr
      intro a ha
      have hmem := mem_sortBy.mp ha
      have hact := (List.mem_filter.mp hmem).2
      have hact' : a.status = "active" := by simpa using hact
      rw [bne, hact']
      rfl
  · intro r hr
    have hmem := mem_sortBy.mp hr
    have := (List.mem_filter.mp hmem).2
    simpa using this
  · intro r hr
    have hmem := mem_sortBy.mp (List.mem_filter.mp hr).1
    have := (List.mem_filter.mp hmem).2
    simpa [bne_iff_ne] using this
  · exact (sortBy_pairwise leAsc_total leAsc_trans _).imp
      (fun h => by rwa [leAsc, decide_eq_true_eq] at h)
  · exact (sortBy_pairwise leDesc_total leDesc_trans _).imp
      (fun h => by rwa [leDesc, decide_eq_true_eq] at h)
  · intro k
    apply filter_sortBy
    intro a _ b _ hpa hpb
    have ha' : startKey a = k := by simpa using hpa
    have hb' : startKey b = k := by simpa using hpb
    rw [leAsc]
    exact decide_eq_true (by omega)
  · intro k
    apply filter_sortBy
    intro a _ b _ hpa hpb
    have ha' : startKey a = k := by simpa using hpa
    have hb' : startKey b = k := by simpa using hpb
    rw [leDesc]
    exact decide_eq_true (by omega)

/-- Witness for C5 on a concrete four-entry table with active, arrived and
cancelled reservations. -/
theorem claim5_render_order_amended_witness :
    renderReservationList [resActive, resArrived, resCancelled, resLater] =
      sortBy leAsc ([resActive, resArrived, resCancelled, resLater].filter
        fun r => r.status == "active") ++
        ((sortBy leDesc ([resActive, resArrived, resCancelled, resLater].filter
          fun r => r.status != "active")).filter fun r => r.status != "arrived") :=
  (claim5_render_order_amended [resActive, resArrived, resCancelled, resLater] (by decide)).1

/-- C8: a snapshot fetch that fails at any stage — network error, non-2xx
response, or a body that does not parse as JSON — leaves the in-memory table
state exactly as it was; the state is replaced (by `data.tables || []`) only
when every stage succeeds. -/
theorem claim8_fetch_atomic (prev : List Table) (resp : FetchResponse) :
    fetchTables prev (Except.error ()) = prev ∧
    (resp.ok = false → fetchTables prev (Except.ok resp) = prev) ∧
    (resp.json = Except.error () → fetchTables prev (Except.ok resp) = prev) ∧
    (∀ tables, resp.ok = true → resp.json = Except.ok tables →
      fetchTables prev (Except.ok resp) = tables.getD []) := by
  obtain ⟨ok, json⟩ := resp
  refine ⟨rfl, ?_, ?_, ?_⟩
  · intro h
    subst h
    rfl
  · intro h
    subst h
    cases ok <;> rfl
  · intro tables hok hjson
    subst hok
    subst hjson
    rfl

/-- Witness for C8: a non-2xx response and an unparseable body both preserve a
concrete previous state, while a successful fetch replaces it. -/
theorem claim8_fetch_atomic_witness :
    fetchTables [⟨1, "一楼", "A1", 4, []⟩] (Except.error ()) = [⟨1, "一楼", "A1", 4, []⟩] ∧
    fetchTables [⟨1, "一楼", "A1", 4, []⟩]
      (Except.ok ⟨false, Except.ok (some [])⟩) = [⟨1, "一楼", "A1", 4, []⟩] ∧
    fetchTables [⟨1, "一楼", "A1", 4, []⟩]
      (Except.ok ⟨true, Except.error ()⟩) = [⟨1, "一楼", "A1", 4, []⟩] ∧
    fetchTables [⟨1, "一楼", "A1", 4, []⟩]
      (Except.ok ⟨true, Except.ok (some [⟨2, "二楼", "B1", 2, []⟩])⟩) =
      [⟨2, "二楼", "B1", 2, []⟩] :=
  ⟨(claim8_fetch_atomic [⟨1, "一楼", "A1", 4, []⟩] ⟨false, Except.ok (some [])⟩).1,
   (claim8_fetch_atomic [⟨1, "一楼", "A1", 4, []⟩] ⟨false, Except.ok (some [])⟩).2.1 rfl,
   (claim8_fetch_atomic [⟨1, "一楼", "A1", 4, []⟩] ⟨true, Except.error ()⟩).2.2.1 rfl,
   (claim8_fetch_atomic [⟨1, "一楼", "A1", 4, []⟩]
     ⟨true, Except.ok (some [⟨2, "二楼", "B1", 2, []⟩])⟩).2.2.2
     (some [⟨2, "二楼", "B1", 2, []⟩]) rfl rfl⟩

theorem splitCh_not_mem {c : Char} {l : List Char} (h : c ∉ l) : splitCh c l = [l] := by
  induction l with
  | nil => rfl
  | cons x xs ih =>
    have hx : ¬ x = c := fun he => h (he ▸ List.mem_cons_self x xs)
    have hxs : c ∉ xs := fun hm => h (List.mem_cons_of_mem x hm)
    rw [splitCh, if_neg hx, ih hxs]

theorem splitCh_append {c : Char} {l1 l2 : List Char} (h : c ∉ l1) :
    splitCh c (l1 ++ c :: l2) = l1 :: splitCh c l2 := by
  induction l1 with
  | nil => rw [List.nil_append, splitCh, if_pos rfl]
  | cons x xs ih =>
    have hx : ¬ x = c := fun he => h (he ▸ List.mem_cons_self x xs)
    have hxs : c ∉ xs := fun hm => h (List.mem_cons_of_mem x hm)
    rw [List.cons_append, splitCh, if_neg hx, ih hxs]

/-- The finitely many two-digit minute texts behave as expected: they contain
no separator characters, `Number` parses them back, and flooring to a
quarter-hour is idempotent and stays below 60. -/
theorem minuteChars_facts :
    ∀ m : Nat, m < 60 →
      ('T' ∉ minuteChars m ∧ ':' ∉ minuteChars m ∧
        jsNumber (minuteChars m) = some (m : Int) ∧
        padStart2 (toString ((m : Int).fdiv 15 * 15)).toList = minuteChars (m / 15 * 15) ∧
        m / 15 * 15 < 60 ∧ (m / 15 * 15) / 15 * 15 = m / 15 * 15 ∧
        (m % 15 = 0 → m / 15 * 15 = m)) := by decide

theorem mkLocalL_ne_nil (d h : List Char) (m : Nat) : mkLocalL d h m ≠ [] := by
  cases d <;> simp [mkLocalL]

/-- On a well-formed datetime-local value, `alignToQuarter` floors the minute
to a multiple of 15 and leaves the date and hour parts unchanged. -/
theorem alignToQuarterL_mkLocalL {d h : List Char} {m : Nat}
    (hdT : 'T' ∉ d) (hhT : 'T' ∉ h) (hhC : ':' ∉ h) (hm : m < 60) :
    alignToQuarterL (mkLocalL d h m) = mkLocalL d h (m / 15 * 15) := by
  obtain ⟨hmT, hmC, hjs, hpad, _, _, _⟩ := minuteChars_facts m hm
  have hTtime : 'T' ∉ h ++ ':' :: minuteChars m := by
    intro hmem
    rcases List.mem_append.mp hmem with h1 | h1
    · exact hhT h1
    · rcases List.mem_cons.mp h1 with h2 | h2
      · exact absurd h2 (by decide)
      · exact hmT h2
  have hsplitT : splitCh 'T' (mkLocalL d h m) = [d, h ++ ':' :: minuteChars m] := by
    rw [mkLocalL, splitCh_append hdT, splitCh_not_mem hTtime]
  have hsplitC : splitCh ':' (h ++ ':' :: minuteChars m) = [h, minuteChars m] := by
    rw [splitCh_append hhC, splitCh_not_mem hmC]
  have htp : h ++ ':' :: minuteChars m ≠ [] := by simp
  rw [alignToQuarterL, if_neg (mkLocalL_ne_nil d h m), hsplitT, alignParts,
    alignTimePart, if_neg htp, hsplitC, alignSegs, hjs]
  show rebuildQuarter d h (m : Int) = mkLocalL d h (m / 15 * 15)
  rw [rebuildQuarter, hpad]
  rfl

/-- C7: for every well-formed datetime-local start time (a date part and hour
free of separator characters, minute below 60), the submitted value floors
the minute to the nearest lower multiple of 15 and leaves the date and hour
unchanged; an empty value is rejected instead of being sent. -/
theorem claim7_submit_minute_floor (d h : List Char) (m : Nat)
    (hdT : 'T' ∉ d) (hhT : 'T' ∉ h) (hhC : ':' ∉ h) (hm : m < 60) :
    submitStartTime (mkLocal d h m) = some (mkLocal d h (m / 15 * 15)) ∧
    submitStartTime "" = none := by
  have hfalse : (mkLocal d h m).toList.isEmpty = false := by
    show (mkLocalL d h m).isEmpty = false
    cases d <;> rfl
  constructor
  · rw [submitStartTime, if_neg (by rw [hfalse]; decide)]
    show some (String.mk (alignToQuarterL (mkLocalL d h m))) =
      some (String.mk (mkLocalL d h (m / 15 * 15)))
    rw [alignToQuarterL_mkLocalL hdT hhT hhC hm]
  · rfl

/-- Witness for C7 at minute 37: the submitted minute is 30. -/
theorem claim7_submit_minute_floor_witness :
    submitStartTime (mkLocal "2024-05-01".toList "12".toList 37) =
      some (mkLocal "2024-05-01".toList "12".toList (37 / 15 * 15)) :=
  (claim7_submit_minute_floor "2024-05-01".toList "12".toList 37
    (by decide) (by decide) (by decide) (by decide)).1

/-- C10 counterexample: `alignToQuarter` is not idempotent on arbitrary
strings — on `"2020-01-01T00:12x"` the NaN-minute path returns the input
truncated to 16 characters (`"2020-01-01T00:12"`), and a second application
then rewrites the now-parseable minute 12 down to 00. -/
theorem claim10_idempotent_counterexample :
    alignToQuarter (alignToQuarter "2020-01-01T00:12x") ≠
      alignToQuarter "2020-01-01T00:12x" := by decide

/-- C10 amended: `alignToQuarter` is idempotent on well-formed datetime-local
values (its idempotence can fail only on malformed strings that take the
truncation path); a well-formed value whose minute is already a multiple of
15 is a fixed point, and the default suggestion always lands on such a minute,
so the default-suggestion / submission-normalization composition is
drift-free. -/
theorem claim10_align_idempotent_amended (d h : List Char) (m : Nat)
    (hdT : 'T' ∉ d) (hhT : 'T' ∉ h) (hhC : ':' ∉ h) (hm : m < 60) :
    alignToQuarter (alignToQuarter (mkLocal d h m)) = alignToQuarter (mkLocal d h m) ∧
    (m % 15 = 0 → alignToQuarter (mkLocal d h m) = mkLocal d h m) ∧
    (∀ clock : LocalClock, (setDefaultReservationTime clock).totalMin % 60 % 15 = 0) := by
  obtain ⟨_, _, _, _, hlt, hfix, hmod⟩ := minuteChars_facts m hm
  have h1 : alignToQuarter (mkLocal d h m) = mkLocal d h (m / 15 * 15) := by
    show String.mk (alignToQuarterL (mkLocalL d h m)) = mkLocal d h (m / 15 * 15)
    rw [alignToQuarterL_mkLocalL hdT hhT hhC hm]
    rfl
  have h2 : alignToQuarter (mkLocal d h (m / 15 * 15)) =
      mkLocal d h ((m / 15 * 15) / 15 * 15) := by
    show String.mk (alignToQuarterL (mkLocalL d h (m / 15 * 15))) =
      mkLocal d h ((m / 15 * 15) / 15 * 15)
    rw [alignToQuarterL_mkLocalL hdT hhT hhC hlt]
    rfl
  refine ⟨?_, ?_, ?_⟩
  · rw [h1, h2, hfix]
  · intro hz
    rw [h1, hmod hz]
  · intro clock
    simp only [setDefaultReservationTime]
    split_ifs <;> omega

/-- Witness for C10 at minute 37: applying `alignToQuarter` twice gives the
same value as applying it once. -/
theorem claim10_align_idempotent_amended_witness :
    alignToQuarter (alignToQuarter (mkLocal "2024-05-01".toList "12".toList 37)) =
      alignToQuarter (mkLocal "2024-05-01".toList "12".toList 37) :=
  (claim10_align_idempotent_amended "2024-05-01".toList "12".toList 37
    (by decide) (by decide) (by decide) (by decide)).1
